import Mathlib

/-!
Verification development for the MemOS memory scheduler.

This file gives a shallow embedding of the scheduler operations referenced by
the specification: the working-memory monitor transform, the rerank pipeline
(merge, similarity filter, length filter, dedup, LLM rerank, map-back),
working-memory replacement, the activation-memory manager, the web-log
submission path, the enhancement batch retry loop, task submission with
priority bypass, the session-turn processing early exit, and the history
manager's append/detach of related content.

Python strings are modelled as lists of characters; Python dicts that are only
iterated are modelled as association lists in insertion order; LLM, embedder
and broker collaborators are modelled as explicit oracle parameters.  Code of
the repository that is not part of the provided sources (the orchestrator's
priority table, the monitor store, the text-normalisation and filter utilities,
the KV-cache memory) is modelled from the specification; each such definition
carries a doc comment saying so.
-/

namespace MemOS

/-- Memory texts, tags, keys and queries: Python `str` as a list of chars. -/
abbrev Text := List Char

/-- `memos.memories.textual.item.TextualMemoryItem`, restricted to the fields
the scheduler reads: the id, the memory text and the metadata tags. -/
structure TextualMemoryItem where
  id : Nat
  memory : Text
  tags : List Text
deriving DecidableEq

/-- The tag `"mode:fast"` filtered out of `original` in `replace_working_memory`. -/
def fastTag : Text := "mode:fast".toList

/-! ### Working-memory monitor transform (base_mixins/memory_ops.py) -/

/-- Scan loop of Python `str.count` for a non-empty pattern: on a match, skip
the length of the pattern.  `fuel` bounds the number of steps by the length of
the scanned text (the fuel makes the recursion structural; it never runs out
when initialised with the text length, since each step consumes at least one
character). -/
def countOccsAux (p : Text) : Nat → Text → Nat
  | 0, _ => 0
  | _ + 1, [] => 0
  | fuel + 1, c :: rest =>
    if p.isPrefixOf (c :: rest) then 1 + countOccsAux p fuel (rest.drop (p.length - 1))
    else countOccsAux p fuel rest

/-- Python `str.count`: number of non-overlapping occurrences of `p` in `s`,
scanning left to right (for the empty pattern Python returns `len(s) + 1`). -/
def countOccs (p : Text) (s : Text) : Nat :=
  if p = [] then s.length + 1 else countOccsAux p s.length s

/-- `MemoryMonitorItem` (monitor_schemas), fields used by the scheduler. -/
structure MemoryMonitorItem where
  memory_text : Text
  tree_memory_item : TextualMemoryItem
  tree_memory_item_mapping_key : Text
  sorting_score : Nat
  keywords_score : Nat
  recording_count : Nat
deriving DecidableEq

/-- The keyword-score accumulation loop of
`transform_working_memories_to_monitors`: for each `(keyword, count)` entry of
the query-keyword dict, add `text.count(keyword) * count` when the keyword
occurs at least once.  The surrounding guard `if query_keywords and text_mem`
is part of `monitorOf` below. -/
def kwScore (text : Text) (kws : List (Text × Nat)) : Nat :=
  kws.foldl
    (fun acc q =>
      let n := countOccs q.1 text
      if 0 < n then acc + n * q.2 else acc)
    0

/-- One iteration of the loop body of `transform_working_memories_to_monitors`
(`key` models `transform_name_to_key`, see `replaceWorkingMemory`). -/
def monitorOf (key : Text → Text) (kws : List (Text × Nat)) (memLength idx : Nat)
    (mem : TextualMemoryItem) : MemoryMonitorItem :=
  { memory_text := mem.memory
    tree_memory_item := mem
    tree_memory_item_mapping_key := key mem.memory
    sorting_score := memLength - idx
    keywords_score := if kws ≠ [] ∧ mem.memory ≠ [] then kwScore mem.memory kws else 0
    recording_count := 1 }

/-- The `enumerate` loop of `transform_working_memories_to_monitors`. -/
def transformFrom (key : Text → Text) (kws : List (Text × Nat)) (memLength : Nat) :
    Nat → List TextualMemoryItem → List MemoryMonitorItem
  | _, [] => []
  | idx, m :: rest => monitorOf key kws memLength idx m :: transformFrom key kws memLength (idx + 1) rest

/-- `BaseSchedulerMemoryMixin.transform_working_memories_to_monitors`. -/
def transform_working_memories_to_monitors (key : Text → Text) (kws : List (Text × Nat))
    (memories : List TextualMemoryItem) : List MemoryMonitorItem :=
  transformFrom key kws memories.length 0 memories

/-! ### History manager append/detach (organize/history_manager.py) -/

def CONFLICT_MEMORY_TITLE : Text := "[possibly conflicting memories]".toList

def DUPLICATE_MEMORY_TITLE : Text := "[possibly duplicate memories]".toList

/-- The marker string `"\n\n" + title + ":"` used both when a section is
appended and when `_detach_related_content` looks for the cut position. -/
def markerOf (title : Text) : Text := '\n' :: '\n' :: (title ++ [':'])

/-- Truncation of one related memory: `mem[:200] + "..."` when longer than 200. -/
def snippetOf (mem : Text) : Text :=
  if 200 < mem.length then mem.take 200 ++ "...".toList else mem

/-- The section-content accumulation loop of `_format_section`, with the
1000-character cap and the `"... (more items truncated)"` break. -/
def sectionContentAux : List Text → Text → Text
  | [], acc => acc
  | mem :: rest, acc =>
    let sn := snippetOf mem
    if 1000 < acc.length + sn.length + 5 then acc ++ "\n- ... (more items truncated)".toList
    else sectionContentAux rest (acc ++ "\n- ".toList ++ sn)

/-- `_format_section(title, items)`. -/
def formatSection (title : Text) (items : List Text) : Text :=
  if items = [] then [] else markerOf title ++ sectionContentAux items []

/-- `_append_related_content` at the level of the memory text: conflicts
section first, then duplicates section; appended only when non-empty. -/
def appendRelatedContent (memory : Text) (duplicates conflicts : List Text) : Text :=
  let appendText := formatSection CONFLICT_MEMORY_TITLE conflicts ++
    formatSection DUPLICATE_MEMORY_TITLE duplicates
  if appendText = [] then memory else memory ++ appendText

/-- Python `str.find`: index of the first occurrence of `p` in `s`, as an
`Option` (`none` models the `-1` of a missed search). -/
def firstOcc (p : Text) : Text → Option Nat
  | [] => if p.isPrefixOf ([] : Text) then some 0 else none
  | c :: t => if p.isPrefixOf (c :: t) then some 0 else (firstOcc p t).map (· + 1)

/-- The cut-index computation of `_detach_related_content`: the smaller of the
first occurrences of the two markers, when any is present. -/
def cutIndex (s : Text) : Option Nat :=
  match firstOcc (markerOf CONFLICT_MEMORY_TITLE) s, firstOcc (markerOf DUPLICATE_MEMORY_TITLE) s with
  | none, none => none
  | some a, none => some a
  | none, some b => some b
  | some a, some b => some (min a b)

/-- `_detach_related_content` at the level of the memory text. -/
def detachRelatedContent (memory : Text) : Text :=
  match cutIndex memory with
  | none => memory
  | some i => memory.take i

/-- `_append_related_content` on a `TextualMemoryItem` (mutates `item.memory`). -/
def appendRelatedItem (item : TextualMemoryItem) (duplicates conflicts : List Text) :
    TextualMemoryItem :=
  { item with memory := appendRelatedContent item.memory duplicates conflicts }

/-- `_detach_related_content` on a `TextualMemoryItem`. -/
def detachRelatedItem (item : TextualMemoryItem) : TextualMemoryItem :=
  { item with memory := detachRelatedContent item.memory }

/-- `p` occurs as a contiguous substring of `s`. -/
def occursIn (p s : Text) : Prop := ∃ i, p.isPrefixOf (s.drop i)

instance (p s : Text) : Decidable (occursIn p s) := by
  have : occursIn p s ↔ ∃ i ∈ List.range (s.length + 1), p.isPrefixOf (s.drop i) := by
    constructor
    · rintro ⟨i, hi⟩
      by_cases h : i ≤ s.length
      · exact ⟨i, List.mem_range.2 (Nat.lt_succ_of_le h), hi⟩
      · refine ⟨s.length, List.mem_range.2 (Nat.lt_succ_self _), ?_⟩
        have hd : s.drop i = [] := List.drop_eq_nil_of_le (le_of_not_le h)
        have hd2 : s.drop s.length = [] := List.drop_eq_nil_of_le le_rfl
        rw [hd2]
        rw [hd] at hi
        exact hi
    · rintro ⟨i, _, hi⟩
      exact ⟨i, hi⟩
  exact decidable_of_iff _ this.symm

/-! ### Rerank pipeline (memory_manage_modules/rerank_pipeline.py)

`transform_name_to_key`, `filter_vector_based_similar_memories` and
`filter_too_short_memories` live in `mem_scheduler/utils/filter_utils.py`,
which is not part of the provided sources.  They are modelled from the spec:
`key` is the normalisation of a text (§3, "mapping_key (normalized form of the
text)"), `cosGe` is the thresholded embedder ("drop any item whose embedding
cosine ≥ 0.75 against an earlier kept item", §4.5; the embedder itself is an
external collaborator), and the length filter drops items shorter than 6
characters (§4.5). -/

/-- Modelled from the spec: greedy vector-similarity dedup — an item is kept
when `cosGe` (cosine ≥ threshold 0.75) is false against every earlier kept
item; order preserved.  `kept` is the accumulator of already-kept texts. -/
def filterSimilarAux (cosGe : Text → Text → Bool) : List Text → List Text → List Text
  | _, [] => []
  | kept, t :: rest =>
    if kept.all (fun k => ¬ cosGe k t) then t :: filterSimilarAux cosGe (kept ++ [t]) rest
    else filterSimilarAux cosGe kept rest

/-- Modelled from the spec: `filter_vector_based_similar_memories`. -/
def filter_vector_based_similar_memories (cosGe : Text → Text → Bool) (texts : List Text) :
    List Text :=
  filterSimilarAux cosGe [] texts

/-- Modelled from the spec: `filter_too_short_memories` with
`min_length_threshold = 6` — drop items shorter than 6 characters. -/
def filter_too_short_memories (texts : List Text) : List Text :=
  texts.filter (fun t => 6 ≤ t.length)

/-- Python `list(dict.fromkeys(l))`: stable dedup keeping first occurrences. -/
def dedupKeepFirst : List Text → List Text :=
  go []
where
  go : List Text → List Text → List Text
    | _, [] => []
    | seen, t :: rest => if t ∈ seen then go seen rest else t :: go (t :: seen) rest

/-- Lookup in the Python dict comprehension
`{transform_name_to_key(m.memory): m for m in combined}`: the dict maps a key
to the LAST combined item with that key, so lookup returns the last match. -/
def mapLookup (key : Text → Text) (combined : List TextualMemoryItem) (k : Text) :
    Option TextualMemoryItem :=
  (combined.filter (fun m => key m.memory = k)).getLast?

/-- Python list indexing `l[i]` with negative-index wrap-around; `none` models
the `IndexError` raised for an index out of range. -/
def pyGet (l : List Text) (i : Int) : Option Text :=
  if 0 ≤ i then l[i.toNat]?
  else if -(l.length : Int) ≤ i then l[(i + l.length).toNat]?
  else none

/-- The list comprehension `[original_memories[idx] for idx in new_order]`:
`none` when any index raises (the surrounding `except` then falls back). -/
def pySelect (l : List Text) : List Int → Option (List Text)
  | [] => some []
  | i :: is =>
    match pyGet l i, pySelect l is with
    | some t, some ts => some (t :: ts)
    | _, _ => none

/-- The parsed JSON of a successful rerank-LLM response: parsing succeeds only
when both the `new_order` and `reasoning` fields are present (a missing field
raises `KeyError` inside the `try`). -/
structure RerankResponse where
  new_order : List Int
  reasoning : Text
deriving DecidableEq

/-- `RerankPipeline.rerank_memories`.  `llm` is the parse of the LLM response
(`none` = unparseable or missing field).  The `.error` value models the
`IndexError` that `queries[0]` raises outside the `try` block when `queries`
is empty.  On the success path the code slices `new_order[:top_k]` first and
then indexes; any out-of-range index raises inside the `try` and lands in the
fallback branch. -/
def rerank_memories (llm : Option RerankResponse) (queries : List Text)
    (original_memories : List Text) (topK : Nat) : Except Unit (List Text × Bool) :=
  match queries with
  | [] => .error ()
  | _ :: _ =>
    match llm with
    | none => .ok (original_memories.take topK, false)
    | some resp =>
      match pySelect original_memories (resp.new_order.take topK) with
      | some ts => .ok (ts, true)
      | none => .ok (original_memories.take topK, false)

/-- The merged, similarity-filtered, length-filtered, deduplicated text list
built by `process_and_rerank_memories` before reranking. -/
def mergedFilteredDeduped (cosGe : Text → Text → Bool)
    (original new : List TextualMemoryItem) : List Text :=
  dedupKeepFirst (filter_too_short_memories
    (filter_vector_based_similar_memories cosGe ((original ++ new).map (·.memory))))

/-- The map-back step of `process_and_rerank_memories`: each reranked text is
normalised and looked up in the memory map; a text whose key is absent is
silently dropped. -/
def mapBack (key : Text → Text) (combined : List TextualMemoryItem) (texts : List Text) :
    List TextualMemoryItem :=
  texts.filterMap (fun t => mapLookup key combined (key t))

/-- `RerankPipeline.process_and_rerank_memories`. -/
def process_and_rerank_memories (key : Text → Text) (cosGe : Text → Text → Bool)
    (llm : Option RerankResponse) (queries : List Text)
    (original new : List TextualMemoryItem) (topK : Nat) :
    Except Unit (List TextualMemoryItem × Bool) :=
  match rerank_memories llm queries (mergedFilteredDeduped cosGe original new) topK with
  | .error e => .error e
  | .ok (ts, ok) => .ok (mapBack key (original ++ new) ts, ok)

/-! ### Working-memory replacement (base_mixins/memory_ops.py) -/

/-- Modelled from the spec: `MemoryFilter.filter_unrelated_memories` (the
filter module is not part of the provided sources).  One LLM call returns a
boolean vector (`mask`); on parse failure the input is returned unchanged with
`ok = false` (§4.5). -/
def filter_unrelated_memories (mask : Option (List Bool))
    (memories : List TextualMemoryItem) : List TextualMemoryItem × Bool :=
  match mask with
  | none => (memories, false)
  | some bs => ((memories.zip bs).filterMap (fun p => if p.2 then some p.1 else none), true)

/-- Key-collapsing helper for the monitor working set; `seen` accumulates the
mapping keys already kept. -/
def dedupByMappingKeyAux : List Text → List MemoryMonitorItem → List MemoryMonitorItem
  | _, [] => []
  | seen, m :: rest =>
    if m.tree_memory_item_mapping_key ∈ seen then dedupByMappingKeyAux seen rest
    else m :: dedupByMappingKeyAux (m.tree_memory_item_mapping_key :: seen) rest

/-- Modelled from the spec: `monitor.update_working_memory_monitors` (the
monitor store is not part of the provided sources).  The new monitor entries
replace the per-(user, cube) working set — "a working-set entry exists from
first insertion until evicted by a later replace" (§3) — and duplicate
`mapping_key`s collapse, keeping the first entry ("within a (user, cube)
working set, `mapping_key` is unique (duplicate texts collapse)", §3). -/
def update_working_memory_monitors (newMonitors : List MemoryMonitorItem) :
    List MemoryMonitorItem :=
  dedupByMappingKeyAux [] newMonitors

/-- Modelled from the spec: `get_sorted_mem_monitors(reverse=True)` — a stable
sort of the working set by `sorting_score` descending (§4.4). -/
def get_sorted_mem_monitors (monitors : List MemoryMonitorItem) : List MemoryMonitorItem :=
  List.insertionSort (fun a b => b.sorting_score ≤ a.sorting_score) monitors

/-- `BaseSchedulerMemoryMixin.replace_working_memory` on the `TreeTextMemory`
branch.  `rerankLLM` and `filterMask` are the parsed responses of the two LLM
calls; `queryHistory` and `queryKeywords` model the query monitor's state.
Returns `(working set written back to the mem-cube, memories_with_new_order)`;
the `.error` value propagates the `IndexError` of an empty query history. -/
def replace_working_memory (key : Text → Text) (cosGe : Text → Text → Bool)
    (rerankLLM : Option RerankResponse) (filterMask : Option (List Bool))
    (queryHistory : List Text) (queryKeywords : List (Text × Nat)) (topK : Nat)
    (original newMemory : List TextualMemoryItem) :
    Except Unit (List TextualMemoryItem × List TextualMemoryItem) :=
  match process_and_rerank_memories key cosGe rerankLLM queryHistory
      (original.filter (fun m => fastTag ∉ m.tags)) newMemory topK with
  | .error e => .error e
  | .ok (memoriesWithNewOrder, rerankOk) =>
    let (filteredMemories, filterOk) := filter_unrelated_memories filterMask memoriesWithNewOrder
    let memoriesKept := if filterOk then filteredMemories else memoriesWithNewOrder
    let monitors := transform_working_memories_to_monitors key queryKeywords memoriesKept
    let monitors := if rerankOk then monitors
      else monitors.map (fun mon => { mon with sorting_score := 0 })
    let workingSetMonitors := update_working_memory_monitors monitors
    let sorted := get_sorted_mem_monitors workingSetMonitors
    .ok (sorted.map (·.tree_memory_item), memoriesKept)

/-! ### Session-turn processing (handlers/memory_update_handler.py) -/

/-- The intent monitor's answer: `{trigger_retrieval, missing_evidences}`. -/
structure IntentResult where
  trigger_retrieval : Bool
  missing_evidences : List Text
deriving DecidableEq

/-- `MemoryUpdateHandler.process_session_turn` on the `TreeTextMemory` branch.
`working` is `get_working_memory()`, `intent` is `monitor.detect_intent`,
`timeTrigger` is `monitor.timed_trigger`, `search` is the retriever.  The
`none` value models the bare `return` (Python `None`) taken when retrieval is
not triggered and the periodic timer has not elapsed. -/
def process_session_turn (queries : List Text) (working : List TextualMemoryItem)
    (topK : Nat) (intent : IntentResult) (timeTrigger : Bool)
    (search : Text → Nat → List TextualMemoryItem) :
    Option (List TextualMemoryItem × List TextualMemoryItem) :=
  let curWorkingMemory := working.take topK
  if ¬ intent.trigger_retrieval ∧ ¬ timeTrigger then none
  else
    let missingEvidences :=
      if ¬ intent.trigger_retrieval ∧ timeTrigger then queries else intent.missing_evidences
    let kPerEvidence := max 1 (topK / max 1 missingEvidences.length)
    some (curWorkingMemory, (missingEvidences.map (fun e => search e kPerEvidence)).flatten)

/-- The two-value unpacking
`cur_working_memory, new_candidates = self.process_session_turn(...)` in
`long_memory_update_process`: unpacking `None` raises a `TypeError`, modelled
as the `.error` value. -/
def unpackSessionTurn (r : Option (List TextualMemoryItem × List TextualMemoryItem)) :
    Except Text (List TextualMemoryItem × List TextualMemoryItem) :=
  match r with
  | some p => .ok p
  | none => .error "TypeError: cannot unpack non-iterable NoneType object".toList

/-! ### Task submission (base_mixins/queue_ops.py) -/

/-- Task labels (schemas/task_schemas.py constants). -/
inductive TaskLabel where
  | query | answer | add | mem_update | mem_read | mem_reorganize | mem_feedback | pref_add
deriving DecidableEq

/-- Modelled from the spec: `orchestrator.get_task_priority` (the orchestrator
module is not part of the provided sources).  LEVEL_1 labels are query, answer
and add (§4.2); the registry's `build_dispatch_map` in the sources assigns
`TaskPriorityLevel.LEVEL_1` to exactly these three labels. -/
def get_task_priority (label : TaskLabel) : Nat :=
  match label with
  | .query | .answer | .add => 1
  | _ => 2

/-- `ScheduleMessageItem`, restricted to the routing fields. -/
structure ScheduleMessageItem where
  item_id : Nat
  user_id : Text
  mem_cube_id : Text
  label : TaskLabel
  content : Text
deriving DecidableEq

/-- Stable first-occurrence dedup of grouping keys; `seen` holds the keys
already emitted. -/
def dedupFirstOccAux [DecidableEq κ] : List κ → List κ → List κ
  | _, [] => []
  | seen, k :: rest =>
    if k ∈ seen then dedupFirstOccAux seen rest
    else k :: dedupFirstOccAux (k :: seen) rest

/-- Stable first-occurrence dedup of grouping keys. -/
def dedupFirstOcc [DecidableEq κ] (l : List κ) : List κ :=
  dedupFirstOccAux [] l

/-- One inline handler invocation performed by `submit_messages` for a
priority-1 group: `dispatcher.execute_task(user_id, mem_cube_id, label, msgs,
handler)` — modelled from the spec as a synchronous call on the submitting
path ("they run on the caller's thread synchronously", §5). -/
structure HandlerCall where
  user_id : Text
  mem_cube_id : Text
  label : TaskLabel
  msgs : List ScheduleMessageItem
deriving DecidableEq

/-- Modelled from the spec: `group_messages_by_user_and_mem_cube` (misc_utils
is not part of the provided sources) followed by the per-label grouping of
`submit_messages`: messages are grouped by `(user_id, mem_cube_id)` and then
by label, preserving per-group submission order; one handler call per group. -/
def groupIntoHandlerCalls (msgs : List ScheduleMessageItem) : List HandlerCall :=
  (dedupFirstOcc (msgs.map (fun m => (m.user_id, m.mem_cube_id)))).flatMap
    (fun uc =>
      let ucMsgs := msgs.filter (fun m => m.user_id = uc.1 ∧ m.mem_cube_id = uc.2)
      (dedupFirstOcc (ucMsgs.map (·.label))).map
        (fun l => ⟨uc.1, uc.2, l, ucMsgs.filter (fun m => m.label = l)⟩))

/-- `BaseSchedulerQueueMixin.submit_messages`, restricted to routing: metrics,
status tracking and monitor events are effect-free for routing and omitted.
A message with a disabled label is skipped (`continue`); a priority-1 message
joins the inline batch, any other is queued.  Returns the inline handler
invocations (performed before `submit_messages` returns) and the list handed
to `memos_message_queue.submit_messages`. -/
def submit_messages (disabledHandlers : List TaskLabel)
    (messages : List ScheduleMessageItem) : List HandlerCall × List ScheduleMessageItem :=
  let active := messages.filter (fun m => m.label ∉ disabledHandlers)
  let immediateMsgs := active.filter (fun m => get_task_priority m.label = 1)
  let queuedMsgs := active.filter (fun m => get_task_priority m.label ≠ 1)
  (groupIntoHandlerCalls immediateMsgs, queuedMsgs)

/-! ### Activation memory manager
(memory_manage_modules/activation_memory_manager.py) -/

/-- The per-item records of a KV-cache item; modelled from the spec, since the
KV-cache memory classes are not part of the provided sources (§4.8: the cache
item stores the composed prompt it was extracted from and the working texts). -/
structure KVCacheRecords where
  composed_text_memory : Text
  text_memories : List Text
deriving DecidableEq

/-- A KV-cache item (`act_mem.extract(text)` wraps the composed text). -/
structure KVCacheItem where
  records : KVCacheRecords
deriving DecidableEq

/-- The activation cache state: the item list behind `get_all`, `delete_all`
and `add`; modelled from the spec (§4.8). -/
structure ActMemState where
  items : List KVCacheItem
deriving DecidableEq

/-- Effect counters of one `update_activation_memory` call: number of
`delete_all`, `extract`, `add` and `dump` calls. -/
structure ActEffects where
  deletes : Nat
  extracts : Nat
  adds : Nat
  dumps : Nat
deriving DecidableEq

def noActEffects : ActEffects := ⟨0, 0, 0, 0⟩

/-- Python `str.strip`: drop leading and trailing whitespace. -/
def pyStrip (t : Text) : Text :=
  (((t.dropWhile Char.isWhitespace).reverse).dropWhile Char.isWhitespace).reverse

/-- Decimal rendering of a natural number. -/
def natText (n : Nat) : Text := (toString n).toList

/-- `enumerate` with a start index. -/
def enumFrom : Nat → List α → List (Nat × α)
  | _, [] => []
  | i, a :: rest => (i, a) :: enumFrom (i + 1) rest

/-- The numbered-list body
`"".flatten(f"{i + 1}. {s.strip()}\n" for i, s in enumerate(texts) if s.strip())`
of `update_activation_memory` (empty strings are skipped but keep their
enumeration index). -/
def numberedBody (texts : List Text) : Text :=
  ((enumFrom 0 texts).filterMap
    (fun p =>
      if pyStrip p.2 = [] then none
      else some (natText (p.1 + 1) ++ ". ".toList ++ pyStrip p.2 ++ ['\n']))).flatten

/-- `ActivationMemoryManager.update_activation_memory`.  `template` models
`MEMORY_ASSEMBLY_TEMPLATE.format` (the template module is not part of the
provided sources; modelled from the spec §4.8 as a fixed assembly of the
numbered body).  When the composed prompt equals the `composed_text_memory`
of the last cache item, the call returns with no effect; otherwise the cache
is cleared (when non-empty), one item is extracted and added, and the cache
is dumped to disk. -/
def update_activation_memory (template : Text → Text) (newMemories : List Text)
    (st : ActMemState) : ActMemState × ActEffects :=
  if newMemories.length = 0 then (st, noActEffects)
  else
    let newTextMemory := template (numberedBody newMemories)
    let proceed : Nat → ActMemState × ActEffects := fun deletes =>
      (⟨[⟨⟨newTextMemory, newMemories⟩⟩]⟩, ⟨deletes, 1, 1, 1⟩)
    match st.items.getLast? with
    | some lastItem =>
      if lastItem.records.composed_text_memory = newTextMemory then (st, noActEffects)
      else proceed 1
    | none => proceed 0

/-! ### Web-log submission (base_mixins/web_log_ops.py) -/

/-- A web-log event; the payload is opaque for the submission path. -/
structure WebLogItem where
  item_id : Nat
  label : Text
deriving DecidableEq

/-- The scheduler state seen by the web-log plane: the broker configuration
and the bounded in-memory web-log queue (`AutoDroppingQueue`), plus the list
of events published to the broker. -/
structure WebLogState where
  rabbitmq_config : Option Text
  webLogQueue : List WebLogItem
  published : List WebLogItem
deriving DecidableEq

/-- `BaseSchedulerWebLogMixin._submit_web_logs`: iterate over the messages;
when `rabbitmq_config` is `None`, `return` immediately (nothing is enqueued);
otherwise publish each message to the broker. -/
def submit_web_logs (st : WebLogState) : List WebLogItem → WebLogState
  | [] => st
  | m :: rest =>
    match st.rabbitmq_config with
    | none => st
    | some _ => submit_web_logs { st with published := st.published ++ [m] } rest

/-- `BaseSchedulerWebLogMixin.get_web_log_messages`: drain the in-memory
web-log queue and normalise each item (`norm` models `_normalize_item`).
Returns the normalised events and the state with the queue emptied. -/
def get_web_log_messages (norm : WebLogItem → WebLogItem) (st : WebLogState) :
    List WebLogItem × WebLogState :=
  (st.webLogQueue.map norm, { st with webLogQueue := [] })

/-! ### Enhancement pipeline (memory_manage_modules/enhancement_pipeline.py) -/

/-- The retry loop of `_process_enhancement_batch`.  `oracle a` is the parse
`extract_list_items_in_answer(llm.generate(...))` of attempt `a`: `none`
models a raised exception, `some []` an empty parse (which raises
`ValueError`), and a non-empty list a successful enhancement.  `build` turns
the parsed texts into memory items (the REWRITE/RECREATE construction; the
strategy constant lives outside the provided sources and does not affect the
retry accounting).  `fuel` counts the remaining loop iterations — the source
loops `while attempt <= max(0, retries) + 1`, i.e. `retries + 2` iterations
when every attempt fails.  Returns `(result, success flag, number of LLM
generation attempts)`. -/
def enhancementLoop (oracle : Nat → Option (List Text))
    (build : List Text → List TextualMemoryItem) (memories : List TextualMemoryItem) :
    Nat → Nat → List TextualMemoryItem × Bool × Nat
  | 0, _ => (memories, false, 0)
  | fuel + 1, a =>
    match oracle a with
    | some (t :: ts) => (build (t :: ts), true, 1)
    | _ =>
      let r := enhancementLoop oracle build memories fuel (a + 1)
      (r.1, r.2.1, r.2.2 + 1)

/-- `EnhancementPipeline._process_enhancement_batch`. -/
def process_enhancement_batch (oracle : Nat → Option (List Text))
    (build : List Text → List TextualMemoryItem) (memories : List TextualMemoryItem)
    (retries : Nat) : List TextualMemoryItem × Bool × Nat :=
  enhancementLoop oracle build memories (retries + 2) 0

/-- `EnhancementPipeline._split_batches`: fixed-size slices.  The source loop
does not terminate for `batch_size = 0`; the model steps by at least one (the
calling path only splits when `batch_size < len(memories)` with a positive
configured batch size). -/
def split_batches (batchSize : Nat) (l : List TextualMemoryItem) :
    List (List TextualMemoryItem) :=
  let step := max 1 batchSize
  match l with
  | [] => []
  | x :: xs => (x :: xs).take step :: split_batches batchSize ((x :: xs).drop step)
termination_by l.length
decreasing_by
  simp only [List.length_drop, List.length_cons]
  omega

/-- The per-batch results of the multi-batch path of
`enhance_memories_with_query` (batch index passed to the oracle). -/
def enhancementBatchResults (oracle : Nat → Nat → Option (List Text))
    (build : List Text → List TextualMemoryItem) (retries : Nat)
    (batches : List (List TextualMemoryItem)) : List (List TextualMemoryItem × Bool × Nat) :=
  (enumFrom 0 batches).map (fun p => process_enhancement_batch (oracle p.1) build p.2 retries)

/-- `EnhancementPipeline.enhance_memories_with_query`.  The thread pool runs
batches concurrently; completion order only affects the order in which batch
results are concatenated, not the success flag, and is modelled as batch
order. -/
def enhance_memories_with_query (oracle : Nat → Nat → Option (List Text))
    (build : List Text → List TextualMemoryItem) (batchSize : Option Nat) (retries : Nat)
    (memories : List TextualMemoryItem) : List TextualMemoryItem × Bool :=
  if memories.isEmpty then (memories, true)
  else
    let single := fun () =>
      let r := process_enhancement_batch (oracle 0) build memories retries
      (r.1, r.2.1)
    match batchSize with
    | none => single ()
    | some bs =>
      if memories.length ≤ bs then single ()
      else
        let results := enhancementBatchResults oracle build retries (split_batches bs memories)
        ((results.map (·.1)).flatten, results.all (fun r => r.2.1))

/-! ## Theorems -/

/-! ### C8: monitor entry scores -/

theorem countOccsAux_nil (p : Text) (fuel : Nat) : countOccsAux p fuel [] = 0 := by
  cases fuel <;> simp [countOccsAux]

theorem countOccs_nil (p : Text) (hp : p ≠ []) : countOccs p [] = 0 := by
  simp [countOccs, hp, countOccsAux_nil]

theorem transformFrom_getElem (key : Text → Text) (kws : List (Text × Nat)) (total : Nat) :
    ∀ (l : List TextualMemoryItem) (idx i : Nat),
      (transformFrom key kws total idx l)[i]? = (l[i]?).map (monitorOf key kws total (idx + i)) := by
  intro l
  induction l with
  | nil => intro idx i; simp [transformFrom]
  | cons m rest ih =>
    intro idx i
    cases i with
    | zero => simp [transformFrom]
    | succ j =>
      have h : idx + 1 + j = idx + (j + 1) := by omega
      simp [transformFrom, ih (idx + 1) j, h]

theorem kwScore_foldl (text : Text) :
    ∀ (kws : List (Text × Nat)) (acc : Nat),
      kws.foldl
        (fun acc q =>
          let n := countOccs q.1 text
          if 0 < n then acc + n * q.2 else acc)
        acc
      = acc + (kws.map (fun q => countOccs q.1 text * q.2)).sum := by
  intro kws
  induction kws with
  | nil => intro acc; simp
  | cons q rest ih =>
    intro acc
    by_cases h : 0 < countOccs q.1 text
    · simp only [List.foldl_cons, List.map_cons, List.sum_cons, if_pos h, ih]
      omega
    · have h0 : countOccs q.1 text = 0 := by omega
      simp only [List.foldl_cons, List.map_cons, List.sum_cons, ih, h0]
      simp

theorem kwScore_eq_sum (text : Text) (kws : List (Text × Nat)) :
    kwScore text kws = (kws.map (fun q => countOccs q.1 text * q.2)).sum := by
  have := kwScore_foldl text kws 0
  simpa [kwScore] using this

/-- C8: each monitor entry produced by `transform_working_memories_to_monitors`
has `keywords_score` equal to the sum over all keywords of (occurrences of the
keyword in the item text) × (the keyword's frequency count), and
`sorting_score = number of memories − index of the item`.  The hypothesis that
every keyword is non-empty reflects the claim's quantification over keyword
collections derived from the query history (the keyword extractor and its
whitespace/character fallback never produce an empty keyword). -/
theorem C8_monitor_scores (key : Text → Text) (kws : List (Text × Nat))
    (mems : List TextualMemoryItem) (i : Nat) (m : TextualMemoryItem)
    (hkw : ∀ q ∈ kws, q.1 ≠ ([] : Text)) (hm : mems[i]? = some m) :
    ∃ e, (transform_working_memories_to_monitors key kws mems)[i]? = some e ∧
      e.keywords_score = (kws.map (fun q => countOccs q.1 m.memory * q.2)).sum ∧
      e.sorting_score = mems.length - i := by
  refine ⟨monitorOf key kws mems.length i m, ?_, ?_, rfl⟩
  · rw [transform_working_memories_to_monitors, transformFrom_getElem, hm]
    simp
  · show (if kws ≠ [] ∧ m.memory ≠ [] then kwScore m.memory kws else 0) = _
    rcases eq_or_ne kws [] with hk | hk
    · subst hk; simp
    · rcases eq_or_ne m.memory [] with hmem | hmem
      · rw [if_neg (by simp [hmem])]
        refine (List.sum_eq_zero ?_).symm
        intro x hx
        rcases List.mem_map.1 hx with ⟨q, hq, rfl⟩
        rw [hmem, countOccs_nil q.1 (hkw q hq)]
        simp
      · rw [if_pos ⟨hk, hmem⟩, kwScore_eq_sum]

theorem C8_monitor_scores_witness :
    (∀ q ∈ ([(("ab".toList : Text), 2)] : List (Text × Nat)), q.1 ≠ ([] : Text)) ∧
    ([(⟨0, "abab".toList, []⟩ : TextualMemoryItem)][0]? = some ⟨0, "abab".toList, []⟩) ∧
    ∃ e, (transform_working_memories_to_monitors id [("ab".toList, 2)]
        [⟨0, "abab".toList, []⟩])[0]? = some e ∧
      e.keywords_score =
        (([(("ab".toList : Text), 2)]).map (fun q => countOccs q.1 "abab".toList * q.2)).sum ∧
      e.sorting_score = ([(⟨0, "abab".toList, []⟩ : TextualMemoryItem)]).length - 0 :=
  ⟨by decide, by decide,
    C8_monitor_scores id [("ab".toList, 2)] [⟨0, "abab".toList, []⟩] 0 ⟨0, "abab".toList, []⟩
      (by decide) (by decide)⟩

/-! ### C3: no-trigger early exit of process_session_turn -/

/-- C3: when the intent monitor reports `trigger_retrieval = false` and the
periodic timer has not elapsed, `process_session_turn` performs no search and
returns Python `None` — NOT the pair `(current working memory, [])` the claim
(and the spec's intended fix) describes — so the caller
`long_memory_update_process`, which unpacks two values, raises a `TypeError`.
This theorem documents the code's behaviour at the failing inputs. -/
theorem C3_session_turn_returns_none (queries : List Text)
    (working : List TextualMemoryItem) (topK : Nat) (intent : IntentResult)
    (timeTrigger : Bool) (search : Text → Nat → List TextualMemoryItem)
    (h1 : intent.trigger_retrieval = false) (h2 : timeTrigger = false) :
    process_session_turn queries working topK intent timeTrigger search = none ∧
    ∀ r, unpackSessionTurn
        (process_session_turn queries working topK intent timeTrigger search) ≠ .ok r := by
  have hnone : process_session_turn queries working topK intent timeTrigger search = none := by
    simp [process_session_turn, h1, h2]
  refine ⟨hnone, ?_⟩
  intro r
  rw [hnone]
  simp [unpackSessionTurn]

theorem C3_session_turn_returns_none_witness :
    (({ trigger_retrieval := false, missing_evidences := [] } : IntentResult).trigger_retrieval
      = false) ∧
    process_session_turn [] [⟨0, [], []⟩] 10
      { trigger_retrieval := false, missing_evidences := [] } false (fun _ _ => []) = none ∧
    ∀ r, unpackSessionTurn (process_session_turn [] [⟨0, [], []⟩] 10
      { trigger_retrieval := false, missing_evidences := [] } false (fun _ _ => [])) ≠ .ok r :=
  ⟨rfl,
    (C3_session_turn_returns_none [] [⟨0, [], []⟩] 10
      { trigger_retrieval := false, missing_evidences := [] } false (fun _ _ => []) rfl rfl).1,
    (C3_session_turn_returns_none [] [⟨0, [], []⟩] 10
      { trigger_retrieval := false, missing_evidences := [] } false (fun _ _ => []) rfl rfl).2⟩

/-! ### C5: activation-memory idempotence -/

/-- C5: when the newly composed prompt equals the `composed_text_memory` of
the last existing cache item, `update_activation_memory` returns without
deleting the cache, without extract/add, and without dumping; consequently two
consecutive refreshes over the same (non-empty) working set perform exactly
one cache add and leave exactly one cache item. -/
theorem C5_activation_idempotent (template : Text → Text) (ms : List Text)
    (st : ActMemState) (lastItem : KVCacheItem) (hne : ms ≠ [])
    (hlast : st.items.getLast? = some lastItem)
    (heq : lastItem.records.composed_text_memory = template (numberedBody ms)) :
    update_activation_memory template ms st = (st, noActEffects) ∧
    (update_activation_memory template ms ⟨[]⟩).2.adds = 1 ∧
    (update_activation_memory template ms ⟨[]⟩).1.items.length = 1 ∧
    update_activation_memory template ms (update_activation_memory template ms ⟨[]⟩).1
      = ((update_activation_memory template ms ⟨[]⟩).1, noActEffects) := by
  have hlen : ¬ ms.length = 0 := by
    simpa [List.length_eq_zero] using hne
  have hfirst : update_activation_memory template ms ⟨[]⟩
      = (⟨[⟨⟨template (numberedBody ms), ms⟩⟩]⟩, ⟨0, 1, 1, 1⟩) := by
    rw [update_activation_memory, if_neg hlen]
    rfl
  refine ⟨?_, ?_, ?_, ?_⟩
  · rw [update_activation_memory, if_neg hlen]
    simp [hlast, heq]
  · rw [hfirst]
  · rw [hfirst]
    rfl
  · rw [hfirst, update_activation_memory, if_neg hlen]
    simp

theorem C5_activation_idempotent_witness :
    (["hi".toList] ≠ ([] : List Text)) ∧
    ((⟨[⟨⟨numberedBody ["hi".toList], ["hi".toList]⟩⟩]⟩ : ActMemState).items.getLast?
      = some ⟨⟨numberedBody ["hi".toList], ["hi".toList]⟩⟩) ∧
    update_activation_memory id ["hi".toList]
        ⟨[⟨⟨numberedBody ["hi".toList], ["hi".toList]⟩⟩]⟩
      = (⟨[⟨⟨numberedBody ["hi".toList], ["hi".toList]⟩⟩]⟩, noActEffects) ∧
    (update_activation_memory id ["hi".toList] ⟨[]⟩).2.adds = 1 ∧
    (update_activation_memory id ["hi".toList] ⟨[]⟩).1.items.length = 1 ∧
    update_activation_memory id ["hi".toList] (update_activation_memory id ["hi".toList] ⟨[]⟩).1
      = ((update_activation_memory id ["hi".toList] ⟨[]⟩).1, noActEffects) := by
  have h := C5_activation_idempotent id ["hi".toList]
    ⟨[⟨⟨numberedBody ["hi".toList], ["hi".toList]⟩⟩]⟩
    ⟨⟨numberedBody ["hi".toList], ["hi".toList]⟩⟩ (by simp) rfl rfl
  exact ⟨by simp, rfl, h.1, h.2.1, h.2.2.1, h.2.2.2⟩

/-! ### C6: web-log submission without a broker -/

/-- C6: documents the code's behaviour at the failing input.  When
`rabbitmq_config` is `None`, `_submit_web_logs` returns immediately without
ever touching the in-memory web-log queue — the submitted events are NOT
appended (the claim and spec say they queue into the bounded ring), so a
subsequent `get_web_log_messages()` drains only whatever was in the queue
before (nothing, for a fresh scheduler), not the submitted events. -/
theorem C6_no_broker_drops_events (st : WebLogState) (msgs : List WebLogItem)
    (norm : WebLogItem → WebLogItem) (hcfg : st.rabbitmq_config = none) :
    submit_web_logs st msgs = st ∧
    (get_web_log_messages norm (submit_web_logs st msgs)).1 = st.webLogQueue.map norm := by
  have h1 : submit_web_logs st msgs = st := by
    cases msgs with
    | nil => rfl
    | cons m rest => rw [submit_web_logs, hcfg]
  exact ⟨h1, by rw [h1]; rfl⟩

theorem C6_no_broker_drops_events_witness :
    (({ rabbitmq_config := none, webLogQueue := [], published := [] } :
        WebLogState).rabbitmq_config = none) ∧
    submit_web_logs { rabbitmq_config := none, webLogQueue := [], published := [] }
        [⟨0, "query".toList⟩]
      = { rabbitmq_config := none, webLogQueue := [], published := [] } ∧
    (get_web_log_messages id (submit_web_logs
        { rabbitmq_config := none, webLogQueue := [], published := [] }
        [⟨0, "query".toList⟩])).1
      = (([] : List WebLogItem)).map id :=
  ⟨rfl,
    (C6_no_broker_drops_events _ [⟨0, "query".toList⟩] id rfl).1,
    (C6_no_broker_drops_events _ [⟨0, "query".toList⟩] id rfl).2⟩

/-! ### C7: enhancement batch retries -/

theorem enhancementLoop_calls_le (oracle : Nat → Option (List Text))
    (build : List Text → List TextualMemoryItem) (memories : List TextualMemoryItem) :
    ∀ (fuel a : Nat), (enhancementLoop oracle build memories fuel a).2.2 ≤ fuel := by
  intro fuel
  induction fuel with
  | zero => intro a; simp [enhancementLoop]
  | succ n ih =>
    intro a
    rw [enhancementLoop]
    cases h : oracle a with
    | none =>
      simpa using Nat.succ_le_succ (ih (a + 1))
    | some l =>
      cases l with
      | nil => simpa using Nat.succ_le_succ (ih (a + 1))
      | cons t ts => simp

theorem enhancementLoop_all_fail (oracle : Nat → Option (List Text))
    (build : List Text → List TextualMemoryItem) (memories : List TextualMemoryItem)
    (hfail : ∀ a l, oracle a = some l → l = []) :
    ∀ (fuel a : Nat), enhancementLoop oracle build memories fuel a = (memories, false, fuel) := by
  intro fuel
  induction fuel with
  | zero => intro a; rfl
  | succ n ih =>
    intro a
    rw [enhancementLoop]
    cases h : oracle a with
    | none => simp [ih (a + 1)]
    | some l =>
      cases hl : l with
      | nil => simp [ih (a + 1)]
      | cons t ts =>
        exact absurd (hfail a l h) (by simp [hl])

/-- C7 (amended): `_process_enhancement_batch` makes at most `retries + 2` LLM
generation attempts — the claim's bound `retries + 1` is off by one, because
the source loops `while attempt <= max(0, retries) + 1` with `attempt`
starting at 0; when every attempt fails the batch is returned unchanged with
`ok = false` after exactly `retries + 2` attempts; and the overall success
flag of the multi-batch path of `enhance_memories_with_query` is the
conjunction of the per-batch success flags. -/
theorem C7_enhancement_retries :
    (∀ (oracle : Nat → Option (List Text)) (build : List Text → List TextualMemoryItem)
      (memories : List TextualMemoryItem) (retries : Nat),
      (process_enhancement_batch oracle build memories retries).2.2 ≤ retries + 2) ∧
    (∀ (oracle : Nat → Option (List Text)) (build : List Text → List TextualMemoryItem)
      (memories : List TextualMemoryItem) (retries : Nat),
      (∀ a l, oracle a = some l → l = []) →
      process_enhancement_batch oracle build memories retries = (memories, false, retries + 2)) ∧
    (∀ (oracle : Nat → Nat → Option (List Text)) (build : List Text → List TextualMemoryItem)
      (batchSize retries : Nat) (memories : List TextualMemoryItem),
      memories ≠ [] → batchSize < memories.length →
      ((enhance_memories_with_query oracle build (some batchSize) retries memories).2 = true ↔
        ∀ r ∈ enhancementBatchResults oracle build retries (split_batches batchSize memories),
          r.2.1 = true)) := by
  refine ⟨?_, ?_, ?_⟩
  · intro oracle build memories retries
    exact enhancementLoop_calls_le oracle build memories (retries + 2) 0
  · intro oracle build memories retries hfail
    exact enhancementLoop_all_fail oracle build memories hfail (retries + 2) 0
  · intro oracle build batchSize retries memories hne hlt
    have hie : memories.isEmpty = false := by
      simpa [List.isEmpty_iff] using hne
    have hgt : ¬ memories.length ≤ batchSize := by omega
    rw [enhance_memories_with_query]
    simp only [hie, Bool.false_eq_true, if_false, if_neg hgt]
    exact List.all_eq_true

theorem C7_enhancement_retries_witness :
    (process_enhancement_batch (fun _ => none) (fun _ => []) [⟨0, [], []⟩] 1).2.2 ≤ 1 + 2 ∧
    process_enhancement_batch (fun _ => none) (fun _ => []) [⟨0, [], []⟩] 1
      = ([⟨0, [], []⟩], false, 1 + 2) ∧
    (([⟨0, [], []⟩, ⟨1, [], []⟩] : List TextualMemoryItem) ≠ []) ∧
    ((enhance_memories_with_query (fun _ _ => none) (fun _ => []) (some 1) 0
        [⟨0, [], []⟩, ⟨1, [], []⟩]).2 = true ↔
      ∀ r ∈ enhancementBatchResults (fun _ _ => none) (fun _ => []) 0
          (split_batches 1 [⟨0, [], []⟩, ⟨1, [], []⟩]), r.2.1 = true) :=
  ⟨C7_enhancement_retries.1 _ _ _ _,
    C7_enhancement_retries.2.1 _ _ _ _ (fun a l h => Option.noConfusion h),
    by simp,
    C7_enhancement_retries.2.2 _ _ 1 0 _ (by simp) (by simp)⟩

theorem C7_counterexample :
    (process_enhancement_batch (fun _ => none) (fun _ => []) [⟨0, [], []⟩] 0).2.2 = 2 ∧
    ¬ ((process_enhancement_batch (fun _ => none) (fun _ => []) [⟨0, [], []⟩] 0).2.2 ≤ 0 + 1) := by
  constructor
  · rfl
  · decide

/-! ### C4: priority-1 inline bypass in submit_messages -/

theorem mem_dedupFirstOccAux [DecidableEq κ] (l : List κ) :
    ∀ (seen : List κ) (a : κ), a ∈ dedupFirstOccAux seen l ↔ a ∈ l ∧ a ∉ seen := by
  induction l with
  | nil => intro seen a; simp [dedupFirstOccAux]
  | cons k rest ih =>
    intro seen a
    rw [dedupFirstOccAux]
    by_cases hk : k ∈ seen
    · rw [if_pos hk, ih]
      simp only [List.mem_cons]
      constructor
      · rintro ⟨h1, h2⟩
        exact ⟨Or.inr h1, h2⟩
      · rintro ⟨h1 | h1, h2⟩
        · exact absurd (h1 ▸ hk) h2
        · exact ⟨h1, h2⟩
    · rw [if_neg hk]
      simp only [List.mem_cons, ih, List.mem_cons]
      constructor
      · rintro (rfl | ⟨h1, h2⟩)
        · exact ⟨Or.inl rfl, hk⟩
        · exact ⟨Or.inr h1, fun hs => h2 (Or.inr hs)⟩
      · rintro ⟨h1 | h1, h2⟩
        · exact Or.inl h1
        · by_cases hak : a = k
          · exact Or.inl hak
          · exact Or.inr ⟨h1, fun hs => hs.elim (fun h => hak h) h2⟩

theorem mem_dedupFirstOcc [DecidableEq κ] (l : List κ) (a : κ) :
    a ∈ dedupFirstOcc l ↔ a ∈ l := by
  rw [dedupFirstOcc, mem_dedupFirstOccAux]
  simp

theorem groupIntoHandlerCalls_covers (l : List ScheduleMessageItem)
    (m : ScheduleMessageItem) (hm : m ∈ l) :
    ∃ c ∈ groupIntoHandlerCalls l, c.user_id = m.user_id ∧ c.mem_cube_id = m.mem_cube_id ∧
      c.label = m.label ∧ m ∈ c.msgs := by
  have hmuc : m ∈ l.filter (fun x => x.user_id = m.user_id ∧ x.mem_cube_id = m.mem_cube_id) :=
    List.mem_filter.2 ⟨hm, by simp⟩
  refine ⟨⟨m.user_id, m.mem_cube_id, m.label,
      (l.filter (fun x => x.user_id = m.user_id ∧ x.mem_cube_id = m.mem_cube_id)).filter
        (fun x => x.label = m.label)⟩, ?_, rfl, rfl, rfl, ?_⟩
  · rw [groupIntoHandlerCalls]
    apply List.mem_flatMap.2
    refine ⟨(m.user_id, m.mem_cube_id), ?_, ?_⟩
    · exact (mem_dedupFirstOcc _ _).2 (List.mem_map.2 ⟨m, hm, rfl⟩)
    · exact List.mem_map.2
        ⟨m.label, (mem_dedupFirstOcc _ _).2 (List.mem_map.2 ⟨m, hmuc, rfl⟩), rfl⟩
  · exact List.mem_filter.2 ⟨hmuc, by simp⟩

/-- C4: with no disabled handlers (the default configuration), every submitted
message whose label has priority LEVEL_1 is part of some inline handler
invocation performed by `submit_messages` before it returns — for a group with
the message's `(user_id, mem_cube_id, label)` — and every message with any
other label is placed on the task queue instead. -/
theorem C4_priority_bypass (disabled : List TaskLabel) (msgs : List ScheduleMessageItem)
    (hd : disabled = []) (m : ScheduleMessageItem) (hm : m ∈ msgs) :
    (get_task_priority m.label = 1 →
      ∃ c ∈ (submit_messages disabled msgs).1,
        c.user_id = m.user_id ∧ c.mem_cube_id = m.mem_cube_id ∧ c.label = m.label ∧
          m ∈ c.msgs) ∧
    (get_task_priority m.label ≠ 1 → m ∈ (submit_messages disabled msgs).2) := by
  subst hd
  have hactive : msgs.filter (fun x => x.label ∉ ([] : List TaskLabel)) = msgs := by
    simp
  constructor
  · intro hp
    have hmi : m ∈ msgs.filter (fun x => get_task_priority x.label = 1) :=
      List.mem_filter.2 ⟨hm, by simp [hp]⟩
    rw [submit_messages]
    simp only [hactive]
    exact groupIntoHandlerCalls_covers _ m hmi
  · intro hp
    rw [submit_messages]
    simp only [hactive]
    exact List.mem_filter.2 ⟨hm, by simp [hp]⟩

theorem C4_priority_bypass_witness :
    (([] : List TaskLabel) = []) ∧
    ((⟨0, "u".toList, "c".toList, .answer, "hi".toList⟩ : ScheduleMessageItem) ∈
      ([⟨0, "u".toList, "c".toList, .answer, "hi".toList⟩,
        ⟨1, "u".toList, "c".toList, .mem_reorganize, "go".toList⟩] :
        List ScheduleMessageItem)) ∧
    (get_task_priority TaskLabel.answer = 1 →
      ∃ c ∈ (submit_messages []
          [⟨0, "u".toList, "c".toList, .answer, "hi".toList⟩,
           ⟨1, "u".toList, "c".toList, .mem_reorganize, "go".toList⟩]).1,
        c.user_id = "u".toList ∧ c.mem_cube_id = "c".toList ∧ c.label = .answer ∧
          (⟨0, "u".toList, "c".toList, .answer, "hi".toList⟩ : ScheduleMessageItem) ∈ c.msgs) ∧
    (get_task_priority TaskLabel.mem_reorganize ≠ 1 →
      (⟨1, "u".toList, "c".toList, .mem_reorganize, "go".toList⟩ : ScheduleMessageItem) ∈
        (submit_messages []
          [⟨0, "u".toList, "c".toList, .answer, "hi".toList⟩,
           ⟨1, "u".toList, "c".toList, .mem_reorganize, "go".toList⟩]).2) :=
  ⟨rfl, by decide,
    (C4_priority_bypass [] _ rfl ⟨0, "u".toList, "c".toList, .answer, "hi".toList⟩
      (by decide)).1,
    (C4_priority_bypass [] _ rfl ⟨1, "u".toList, "c".toList, .mem_reorganize, "go".toList⟩
      (by decide)).2⟩

/-! ### C2 and C10: rerank fallback and rerank output invariants -/

theorem pyGet_mem (l : List Text) (i : Int) (t : Text) (h : pyGet l i = some t) : t ∈ l := by
  rw [pyGet] at h
  split_ifs at h
  · obtain ⟨hlt, rfl⟩ := List.getElem?_eq_some.1 h
    exact List.getElem_mem hlt
  · obtain ⟨hlt, rfl⟩ := List.getElem?_eq_some.1 h
    exact List.getElem_mem hlt

theorem pySelect_mem (l : List Text) :
    ∀ (idxs : List Int) (ts : List Text), pySelect l idxs = some ts → ∀ t ∈ ts, t ∈ l := by
  intro idxs
  induction idxs with
  | nil =>
    intro ts h t ht
    rw [pySelect] at h
    cases h
    cases ht
  | cons i rest ih =>
    intro ts h t ht
    rw [pySelect] at h
    cases h1 : pyGet l i with
    | none => rw [h1] at h; cases h
    | some t0 =>
      cases h2 : pySelect l rest with
      | none => rw [h1, h2] at h; cases h
      | some ts0 =>
        rw [h1, h2] at h
        cases h
        rcases List.mem_cons.1 ht with rfl | hmem
        · exact pyGet_mem l i t h1
        · exact ih ts0 h2 t hmem

theorem pySelect_length (l : List Text) :
    ∀ (idxs : List Int) (ts : List Text), pySelect l idxs = some ts → ts.length = idxs.length := by
  intro idxs
  induction idxs with
  | nil =>
    intro ts h
    rw [pySelect] at h
    cases h
    rfl
  | cons i rest ih =>
    intro ts h
    rw [pySelect] at h
    cases h1 : pyGet l i with
    | none => rw [h1] at h; cases h
    | some t0 =>
      cases h2 : pySelect l rest with
      | none => rw [h1, h2] at h; cases h
      | some ts0 =>
        rw [h1, h2] at h
        cases h
        simp [ih ts0 h2]

theorem rerank_memories_ok (llm : Option RerankResponse) (queries : List Text)
    (origs : List Text) (topK : Nat) (ts : List Text) (b : Bool)
    (h : rerank_memories llm queries origs topK = .ok (ts, b)) :
    ts.length ≤ topK ∧ ∀ t ∈ ts, t ∈ origs := by
  rw [rerank_memories.eq_def] at h
  split at h
  · cases h
  · split at h
    · cases h
      exact ⟨List.length_take_le _ _, fun t ht => List.mem_of_mem_take ht⟩
    · rename_i resp
      split at h
      · rename_i sel hsel
        cases h
        refine ⟨?_, pySelect_mem origs _ ts hsel⟩
        rw [pySelect_length origs _ ts hsel]
        exact List.length_take_le _ _
      · cases h
        exact ⟨List.length_take_le _ _, fun t ht => List.mem_of_mem_take ht⟩

theorem mapLookup_mem (key : Text → Text) (combined : List TextualMemoryItem) (k : Text)
    (x : TextualMemoryItem) (h : mapLookup key combined k = some x) : x ∈ combined := by
  rw [mapLookup] at h
  exact List.mem_of_mem_filter (List.mem_of_mem_getLast? (Option.mem_def.2 h))

/-- Shared output invariant of `process_and_rerank_memories`: on any `.ok`
result, every returned item is one of the input item objects and the result
has at most `topK` elements. -/
theorem process_and_rerank_output_spec (key : Text → Text) (cosGe : Text → Text → Bool)
    (llm : Option RerankResponse) (queries : List Text)
    (original new : List TextualMemoryItem) (topK : Nat)
    (items : List TextualMemoryItem) (flag : Bool)
    (h : process_and_rerank_memories key cosGe llm queries original new topK
      = .ok (items, flag)) :
    (∀ x ∈ items, x ∈ original ++ new) ∧ items.length ≤ topK := by
  rw [process_and_rerank_memories] at h
  cases hr : rerank_memories llm queries (mergedFilteredDeduped cosGe original new) topK with
  | error e => rw [hr] at h; cases h
  | ok p =>
    obtain ⟨ts, b⟩ := p
    rw [hr] at h
    cases h
    constructor
    · intro x hx
      obtain ⟨t, _, hlook⟩ := List.mem_filterMap.1 hx
      exact mapLookup_mem key _ _ x hlook
    · calc (mapBack key (original ++ new) ts).length
          ≤ ts.length := List.length_filterMap_le _ _
        _ ≤ topK := (rerank_memories_ok llm queries _ topK ts flag hr).1

/-- C10: every item returned by `process_and_rerank_memories` is one of the
input item objects (the map-back step only returns values of the memory map,
which is built from `original ++ new`, and a text whose key misses the map is
dropped by `filterMap`), and the result has at most `topK` elements — on the
success and the fallback path alike; the function never fabricates an item. -/
theorem C10_rerank_output_invariant (key : Text → Text) (cosGe : Text → Text → Bool)
    (llm : Option RerankResponse) (queries : List Text)
    (original new : List TextualMemoryItem) (topK : Nat)
    (items : List TextualMemoryItem) (flag : Bool)
    (h : process_and_rerank_memories key cosGe llm queries original new topK
      = .ok (items, flag)) :
    (∀ x ∈ items, x ∈ original ++ new) ∧ items.length ≤ topK :=
  process_and_rerank_output_spec key cosGe llm queries original new topK items flag h

theorem C10_rerank_output_invariant_witness :
    (process_and_rerank_memories id (fun _ _ => false) none ["q".toList]
        [⟨0, "abcdef".toList, []⟩] [] 1 = .ok ([⟨0, "abcdef".toList, []⟩], false)) ∧
    ((∀ x ∈ ([⟨0, "abcdef".toList, []⟩] : List TextualMemoryItem),
        x ∈ ([⟨0, "abcdef".toList, []⟩] : List TextualMemoryItem) ++ []) ∧
      ([(⟨0, "abcdef".toList, []⟩ : TextualMemoryItem)]).length ≤ 1) :=
  ⟨rfl,
    C10_rerank_output_invariant id (fun _ _ => false) none ["q".toList]
      [⟨0, "abcdef".toList, []⟩] [] 1 [⟨0, "abcdef".toList, []⟩] false rfl⟩

/-- C2 (amended): for a non-empty query list, when the rerank LLM response is
unparseable or missing the `new_order`/`reasoning` fields (`llm = none`),
`process_and_rerank_memories` returns the first `topK` texts of the merged,
similarity-filtered, length-filtered, deduplicated list (mapped back to item
objects) with `ok = false`; the same fallback is also taken — still with
`ok = false`, against the claim — when the response parses but any of the
first `topK` entries of `new_order` is an out-of-range index; only when all
those indices are in range does it return the items selected by `new_order`
(truncated to `topK`) with `ok = true`. -/
theorem C2_rerank_fallback (key : Text → Text) (cosGe : Text → Text → Bool)
    (queries : List Text) (original new : List TextualMemoryItem) (topK : Nat)
    (hq : queries ≠ []) :
    (process_and_rerank_memories key cosGe none queries original new topK
      = .ok (mapBack key (original ++ new)
          ((mergedFilteredDeduped cosGe original new).take topK), false)) ∧
    (∀ resp : RerankResponse,
      pySelect (mergedFilteredDeduped cosGe original new) (resp.new_order.take topK) = none →
      process_and_rerank_memories key cosGe (some resp) queries original new topK
        = .ok (mapBack key (original ++ new)
            ((mergedFilteredDeduped cosGe original new).take topK), false)) ∧
    (∀ (resp : RerankResponse) (sel : List Text),
      pySelect (mergedFilteredDeduped cosGe original new) (resp.new_order.take topK)
        = some sel →
      process_and_rerank_memories key cosGe (some resp) queries original new topK
        = .ok (mapBack key (original ++ new) sel, true)) := by
  obtain ⟨q, qs, rfl⟩ : ∃ x xs, queries = x :: xs := by
    cases queries with
    | nil => exact absurd rfl hq
    | cons x xs => exact ⟨x, xs, rfl⟩
  refine ⟨rfl, ?_, ?_⟩
  · intro resp hsel
    have hr : rerank_memories (some resp) (q :: qs)
        (mergedFilteredDeduped cosGe original new) topK
        = .ok ((mergedFilteredDeduped cosGe original new).take topK, false) := by
      rw [rerank_memories.eq_def]
      simp [hsel]
    rw [process_and_rerank_memories.eq_def, hr]
  · intro resp sel hsel
    have hr : rerank_memories (some resp) (q :: qs)
        (mergedFilteredDeduped cosGe original new) topK = .ok (sel, true) := by
      rw [rerank_memories.eq_def]
      simp [hsel]
    rw [process_and_rerank_memories.eq_def, hr]

theorem C2_rerank_fallback_witness :
    ((["q".toList] : List Text) ≠ []) ∧
    (process_and_rerank_memories id (fun _ _ => false) none ["q".toList]
        [⟨0, "abcdef".toList, []⟩] [] 1
      = .ok (mapBack id ([⟨0, "abcdef".toList, []⟩] ++ [])
          ((mergedFilteredDeduped (fun _ _ => false) [⟨0, "abcdef".toList, []⟩] []).take 1),
          false)) ∧
    (pySelect (mergedFilteredDeduped (fun _ _ => false) [⟨0, "abcdef".toList, []⟩] [])
        ((RerankResponse.mk [0] "r".toList).new_order.take 1) = some ["abcdef".toList]) ∧
    (process_and_rerank_memories id (fun _ _ => false) (some ⟨[0], "r".toList⟩) ["q".toList]
        [⟨0, "abcdef".toList, []⟩] [] 1
      = .ok (mapBack id ([⟨0, "abcdef".toList, []⟩] ++ []) ["abcdef".toList], true)) :=
  ⟨by simp, (C2_rerank_fallback id (fun _ _ => false) ["q".toList]
      [⟨0, "abcdef".toList, []⟩] [] 1 (by simp)).1,
    rfl,
    (C2_rerank_fallback id (fun _ _ => false) ["q".toList]
      [⟨0, "abcdef".toList, []⟩] [] 1 (by simp)).2.2 ⟨[0], "r".toList⟩ ["abcdef".toList] rfl⟩

/-- C2 counterexample: the LLM response `{new_order: [5], reasoning: "r"}`
parses successfully (both fields present), yet for a one-element input list
the out-of-range index 5 raises inside the `try`, so the function returns the
fallback with `ok = false` — the claim's success clause ("when parsing
succeeds it returns the items in the LLM's new_order truncated to top_k with
ok=true") fails at this input. -/
theorem C2_counterexample :
    process_and_rerank_memories id (fun _ _ => false) (some ⟨[5], "r".toList⟩) ["q".toList]
        [⟨0, "abcdef".toList, []⟩] [] 1
      = .ok ([⟨0, "abcdef".toList, []⟩], false) := rfl

/-! ### C1: invariants of the working set written back by replace_working_memory -/

theorem filter_unrelated_sub (mask : Option (List Bool)) (mems out : List TextualMemoryItem)
    (b : Bool) (h : filter_unrelated_memories mask mems = (out, b)) :
    (∀ x ∈ out, x ∈ mems) ∧ out.length ≤ mems.length := by
  cases mask with
  | none =>
    cases h
    exact ⟨fun x hx => hx, le_rfl⟩
  | some bs =>
    cases h
    constructor
    · intro x hx
      obtain ⟨p, hp, hif⟩ := List.mem_filterMap.1 hx
      split at hif
      · cases hif
        exact (List.of_mem_zip hp).1
      · cases hif
    · calc ((mems.zip bs).filterMap fun p => if p.2 then some p.1 else none).length
          ≤ (mems.zip bs).length := List.length_filterMap_le _ _
        _ ≤ mems.length := by rw [List.length_zip]; exact min_le_left _ _

theorem transformFrom_item_mem (key : Text → Text) (kws : List (Text × Nat)) (total : Nat) :
    ∀ (l : List TextualMemoryItem) (idx : Nat) (mon : MemoryMonitorItem),
      mon ∈ transformFrom key kws total idx l →
      mon.tree_memory_item ∈ l ∧
        mon.tree_memory_item_mapping_key = key mon.tree_memory_item.memory := by
  intro l
  induction l with
  | nil => intro idx mon hmem; cases hmem
  | cons m rest ih =>
    intro idx mon hmem
    rw [transformFrom] at hmem
    rcases List.mem_cons.1 hmem with rfl | hmem
    · exact ⟨List.mem_cons_self _ _, rfl⟩
    · obtain ⟨h1, h2⟩ := ih (idx + 1) mon hmem
      exact ⟨List.mem_cons_of_mem _ h1, h2⟩

theorem transformFrom_length (key : Text → Text) (kws : List (Text × Nat)) (total : Nat) :
    ∀ (l : List TextualMemoryItem) (idx : Nat),
      (transformFrom key kws total idx l).length = l.length := by
  intro l
  induction l with
  | nil => intro idx; rfl
  | cons m rest ih => intro idx; simp [transformFrom, ih (idx + 1)]

theorem dedupByMappingKeyAux_sub :
    ∀ (l : List MemoryMonitorItem) (seen : List Text),
      ∀ x ∈ dedupByMappingKeyAux seen l, x ∈ l := by
  intro l
  induction l with
  | nil => intro seen x hx; cases hx
  | cons m rest ih =>
    intro seen x hx
    rw [dedupByMappingKeyAux] at hx
    split at hx
    · exact List.mem_cons_of_mem _ (ih seen x hx)
    · rcases List.mem_cons.1 hx with rfl | hx
      · exact List.mem_cons_self _ _
      · exact List.mem_cons_of_mem _ (ih _ x hx)

theorem dedupByMappingKeyAux_length :
    ∀ (l : List MemoryMonitorItem) (seen : List Text),
      (dedupByMappingKeyAux seen l).length ≤ l.length := by
  intro l
  induction l with
  | nil => intro seen; exact le_rfl
  | cons m rest ih =>
    intro seen
    rw [dedupByMappingKeyAux]
    split
    · exact le_trans (ih seen) (Nat.le_succ _)
    · simpa using Nat.succ_le_succ (ih _)

theorem dedupByMappingKeyAux_spec :
    ∀ (l : List MemoryMonitorItem) (seen : List Text),
      (∀ x ∈ dedupByMappingKeyAux seen l, x.tree_memory_item_mapping_key ∉ seen) ∧
      List.Pairwise
        (fun a b : MemoryMonitorItem =>
          a.tree_memory_item_mapping_key ≠ b.tree_memory_item_mapping_key)
        (dedupByMappingKeyAux seen l) := by
  intro l
  induction l with
  | nil => intro seen; exact ⟨fun x hx => absurd hx (List.not_mem_nil x), List.Pairwise.nil⟩
  | cons m rest ih =>
    intro seen
    rw [dedupByMappingKeyAux]
    split
    · exact ih seen
    · rename_i hk
      obtain ⟨ihmem, ihpw⟩ := ih (m.tree_memory_item_mapping_key :: seen)
      constructor
      · intro x hx
        rcases List.mem_cons.1 hx with rfl | hx
        · exact hk
        · exact fun hs => ihmem x hx (List.mem_cons_of_mem _ hs)
      · refine List.Pairwise.cons ?_ ihpw
        intro y hy
        have := ihmem y hy
        exact fun he => this (he ▸ List.mem_cons_self _ _)

/-- C1 (amended): on every successful `replace_working_memory`, the working
set written back to the mem-cube has at most `topK` items, no two of its items
share the same normalised-text key, and it contains no `mode:fast`-tagged item
of `original` — except an item that also occurs in `newMemory` (the fast-mode
filter removes the item from `original` only; the same item arriving through
`new` is kept, which refutes the claim's unconditional form). -/
theorem C1_working_set_invariants (key : Text → Text) (cosGe : Text → Text → Bool)
    (rerankLLM : Option RerankResponse) (filterMask : Option (List Bool))
    (queryHistory : List Text) (queryKeywords : List (Text × Nat)) (topK : Nat)
    (original newMemory ws rest : List TextualMemoryItem)
    (h : replace_working_memory key cosGe rerankLLM filterMask queryHistory queryKeywords
      topK original newMemory = .ok (ws, rest)) :
    ws.length ≤ topK ∧
    List.Pairwise (fun a b : TextualMemoryItem => key a.memory ≠ key b.memory) ws ∧
    (∀ x ∈ ws, fastTag ∈ x.tags → x ∈ original → x ∈ newMemory) := by
  rw [replace_working_memory.eq_def] at h
  cases hp : process_and_rerank_memories key cosGe rerankLLM queryHistory
      (original.filter fun m => fastTag ∉ m.tags) newMemory topK with
  | error e => rw [hp] at h; cases h
  | ok p =>
    obtain ⟨mwno, rerankOk⟩ := p
    rw [hp] at h
    simp only at h
    cases hf : filter_unrelated_memories filterMask mwno with
    | mk fm fok =>
      rw [hf] at h
      simp only at h
      cases h
      -- names for the pipeline stages
      set memsKept := if fok = true then fm else mwno with hkept
      set monitors0 := transform_working_memories_to_monitors key queryKeywords memsKept
        with hmon0
      set monitorsFinal := if rerankOk = true then monitors0
        else monitors0.map (fun mon => { mon with sorting_score := 0 }) with hmonF
      set deduped := update_working_memory_monitors monitorsFinal with hded
      set sorted := get_sorted_mem_monitors deduped with hsort
      have hperm : List.Perm sorted deduped := List.perm_insertionSort _ _
      -- membership and key facts for monitors
      have hkeptSub : ∀ x ∈ memsKept, x ∈ mwno := by
        rw [hkept]
        split
        · exact (filter_unrelated_sub filterMask mwno fm fok hf).1
        · exact fun x hx => hx
      have hkeptLen : memsKept.length ≤ mwno.length := by
        rw [hkept]
        split
        · exact (filter_unrelated_sub filterMask mwno fm fok hf).2
        · exact le_rfl
      have hmono : ∀ mon ∈ monitorsFinal, mon.tree_memory_item ∈ memsKept ∧
          mon.tree_memory_item_mapping_key = key mon.tree_memory_item.memory := by
        intro mon hmem
        rw [hmonF] at hmem
        have base : ∀ m ∈ monitors0, m.tree_memory_item ∈ memsKept ∧
            m.tree_memory_item_mapping_key = key m.tree_memory_item.memory := fun m hm =>
          transformFrom_item_mem key queryKeywords memsKept.length memsKept 0 m hm
        split at hmem
        · exact base mon hmem
        · obtain ⟨m0, hm0, rfl⟩ := List.mem_map.1 hmem
          exact base m0 hm0
      have hmonLen : monitorsFinal.length = memsKept.length := by
        rw [hmonF]
        split
        · exact transformFrom_length key queryKeywords memsKept.length memsKept 0
        · rw [List.length_map]
          exact transformFrom_length key queryKeywords memsKept.length memsKept 0
      have hspec := process_and_rerank_output_spec key cosGe rerankLLM queryHistory
        (original.filter fun m => fastTag ∉ m.tags) newMemory topK mwno rerankOk hp
      refine ⟨?_, ?_, ?_⟩
      · -- size bound
        calc (sorted.map (·.tree_memory_item)).length
            = sorted.length := List.length_map _ _
          _ = deduped.length := hperm.length_eq
          _ ≤ monitorsFinal.length := dedupByMappingKeyAux_length monitorsFinal []
          _ = memsKept.length := hmonLen
          _ ≤ mwno.length := hkeptLen
          _ ≤ topK := hspec.2
      · -- distinct normalised keys
        have hpwDed := (dedupByMappingKeyAux_spec monitorsFinal []).2
        have hpwSorted :
            List.Pairwise
              (fun a b : MemoryMonitorItem =>
                a.tree_memory_item_mapping_key ≠ b.tree_memory_item_mapping_key) sorted :=
          (List.Perm.pairwise_iff (fun hab => hab.symm) hperm).2 hpwDed
        have hpwKeys :
            List.Pairwise
              (fun a b : MemoryMonitorItem =>
                key a.tree_memory_item.memory ≠ key b.tree_memory_item.memory) sorted := by
          refine hpwSorted.imp_of_mem ?_
          intro a b ha hb hne
          have hga := (hmono a (dedupByMappingKeyAux_sub monitorsFinal [] a
            (hperm.mem_iff.1 ha))).2
          have hgb := (hmono b (dedupByMappingKeyAux_sub monitorsFinal [] b
            (hperm.mem_iff.1 hb))).2
          rw [← hga, ← hgb]
          exact hne
        exact List.pairwise_map.2 hpwKeys
      · -- fast-tagged provenance
        intro x hx hfast horig
        obtain ⟨mon, hmon, rfl⟩ := List.mem_map.1 hx
        have hmemK : mon.tree_memory_item ∈ memsKept :=
          (hmono mon (dedupByMappingKeyAux_sub monitorsFinal [] mon (hperm.mem_iff.1 hmon))).1
        have hmw : mon.tree_memory_item ∈ mwno := hkeptSub _ hmemK
        have hcomb := hspec.1 _ hmw
        rcases List.mem_append.1 hcomb with hfo | hnew
        · have := (List.mem_filter.1 hfo).2
          simp only [decide_eq_true_eq] at this
          exact absurd hfast this
        · exact hnew

theorem C1_working_set_invariants_witness :
    (replace_working_memory id (fun _ _ => false) none none ["q".toList] [] 10
        [⟨1, "abcdefgh".toList, []⟩] [⟨2, "ijklmnop".toList, []⟩]
      = .ok ([⟨1, "abcdefgh".toList, []⟩, ⟨2, "ijklmnop".toList, []⟩],
          [⟨1, "abcdefgh".toList, []⟩, ⟨2, "ijklmnop".toList, []⟩])) ∧
    (([⟨1, "abcdefgh".toList, []⟩, ⟨2, "ijklmnop".toList, []⟩] :
        List TextualMemoryItem).length ≤ 10 ∧
      List.Pairwise (fun a b : TextualMemoryItem => id a.memory ≠ id b.memory)
        [⟨1, "abcdefgh".toList, []⟩, ⟨2, "ijklmnop".toList, []⟩] ∧
      (∀ x ∈ ([⟨1, "abcdefgh".toList, []⟩, ⟨2, "ijklmnop".toList, []⟩] :
          List TextualMemoryItem),
        fastTag ∈ x.tags → x ∈ [⟨1, "abcdefgh".toList, []⟩] → x ∈ [⟨2, "ijklmnop".toList, []⟩])) :=
  ⟨rfl,
    C1_working_set_invariants id (fun _ _ => false) none none ["q".toList] [] 10
      [⟨1, "abcdefgh".toList, []⟩] [⟨2, "ijklmnop".toList, []⟩]
      [⟨1, "abcdefgh".toList, []⟩, ⟨2, "ijklmnop".toList, []⟩]
      [⟨1, "abcdefgh".toList, []⟩, ⟨2, "ijklmnop".toList, []⟩] rfl⟩

/-- C1 counterexample: an item tagged `mode:fast` passed in BOTH `original`
and `new` ends up in the written-back working set — the fast-mode filter only
removes it from `original`, and the copy arriving through `new` survives — so
the claim's requirement that the working set "contains no item from original
whose metadata tags include mode:fast" fails at this input. -/
theorem C1_counterexample :
    (replace_working_memory id (fun _ _ => false) none none ["q".toList] [] 10
        [⟨0, "abcdefgh".toList, [fastTag]⟩] [⟨0, "abcdefgh".toList, [fastTag]⟩]
      = .ok ([⟨0, "abcdefgh".toList, [fastTag]⟩], [⟨0, "abcdefgh".toList, [fastTag]⟩])) ∧
    fastTag ∈ (⟨0, "abcdefgh".toList, [fastTag]⟩ : TextualMemoryItem).tags ∧
    (⟨0, "abcdefgh".toList, [fastTag]⟩ : TextualMemoryItem)
      ∈ ([⟨0, "abcdefgh".toList, [fastTag]⟩] : List TextualMemoryItem) :=
  ⟨rfl, List.mem_cons_self _ _, List.mem_cons_self _ _⟩

/-! ### C9: append/detach round trip -/

theorem firstOcc_eq_none (p : Text) :
    ∀ s : Text, firstOcc p s = none ↔ ∀ i, ¬ p.isPrefixOf (s.drop i) := by
  intro s
  induction s with
  | nil =>
    rw [firstOcc]
    by_cases h : p.isPrefixOf ([] : Text)
    · simp only [h, if_true]
      constructor
      · intro hx; cases hx
      · intro hall; exact absurd h (by simpa using hall 0)
    · simp [h]
  | cons c t ih =>
    rw [firstOcc]
    by_cases h : p.isPrefixOf (c :: t)
    · rw [if_pos h]
      constructor
      · intro hx; cases hx
      · intro hall; exact absurd h (by simpa using hall 0)
    · rw [if_neg h]
      constructor
      · intro hm i
        have hnone : firstOcc p t = none := by
          cases hft : firstOcc p t with
          | none => rfl
          | some j => rw [hft] at hm; cases hm
        have hall := ih.1 hnone
        cases i with
        | zero => simpa using h
        | succ j => simpa using hall j
      · intro hall
        have hnone : firstOcc p t = none := ih.2 (fun j => by simpa using hall (j + 1))
        rw [hnone]
        rfl

theorem firstOcc_isPrefixOf (p : Text) :
    ∀ (s : Text) (j : Nat), firstOcc p s = some j → p.isPrefixOf (s.drop j) := by
  intro s
  induction s with
  | nil =>
    intro j h
    rw [firstOcc] at h
    by_cases hp : p.isPrefixOf ([] : Text)
    · rw [if_pos hp] at h
      cases h
      simpa using hp
    · rw [if_neg hp] at h
      cases h
  | cons c t ih =>
    intro j h
    rw [firstOcc] at h
    by_cases hp : p.isPrefixOf (c :: t)
    · rw [if_pos hp] at h
      cases h
      simpa using hp
    · rw [if_neg hp] at h
      cases hft : firstOcc p t with
      | none => rw [hft] at h; cases h
      | some j0 =>
        rw [hft] at h
        cases h
        simpa [List.drop_succ_cons] using ih j0 hft

theorem firstOcc_ge (p s : Text) (n : Nat)
    (hno : ∀ i, i < n → ¬ p.isPrefixOf (s.drop i)) :
    ∀ j, firstOcc p s = some j → n ≤ j := by
  intro j hj
  by_contra hlt
  exact hno j (by omega) (firstOcc_isPrefixOf p s j hj)

theorem firstOcc_append_eq (p : Text) :
    ∀ (a : Text) (b : Text), p.isPrefixOf b →
      (∀ i, i < a.length → ¬ p.isPrefixOf ((a ++ b).drop i)) →
      firstOcc p (a ++ b) = some a.length := by
  intro a
  induction a with
  | nil =>
    intro b hb _
    cases b with
    | nil => simp [firstOcc, hb]
    | cons c t => simp [firstOcc, hb]
  | cons c a2 ih =>
    intro b hb hno
    have hhead : ¬ p.isPrefixOf (c :: (a2 ++ b)) := by
      simpa using hno 0 (by simp)
    have htail : ∀ i, i < a2.length → ¬ p.isPrefixOf ((a2 ++ b).drop i) := by
      intro i hi
      simpa [List.drop_succ_cons] using hno (i + 1) (by simp; omega)
    rw [List.cons_append, firstOcc, if_neg hhead, ih b hb htail]
    rfl

theorem prefix_of_append_of_le (x a b : List Char) (h : x <+: a ++ b)
    (hle : x.length ≤ a.length) : x <+: a := by
  rw [List.prefix_iff_eq_take] at h
  rw [List.take_append_of_le_length hle] at h
  rw [List.prefix_iff_eq_take]
  exact h

theorem drop_prefix_of_prefix_append (x a b : List Char) (h : x <+: a ++ b)
    (hle : a.length ≤ x.length) : x.drop a.length <+: b := by
  obtain ⟨t, ht⟩ := h
  have ht2 : x.take a.length ++ (x.drop a.length ++ t) = a ++ b := by
    rw [← List.append_assoc, List.take_append_drop]
    exact ht
  have hlen : (x.take a.length).length = a.length := by
    rw [List.length_take]
    omega
  obtain ⟨h1, h2⟩ := List.append_inj ht2 hlen
  exact ⟨t, h2⟩

theorem prefix_take (x y : List Char) (n : Nat) (h : x <+: y) : x.take n <+: y.take n := by
  obtain ⟨t, ht⟩ := h
  rw [← ht, List.take_append_eq_append_take]
  exact ⟨_, rfl⟩

theorem cross_from_take2 (p b : Text) (hb : b.take 2 = ['\n', '\n'])
    (hfact : ∀ d, d < p.length → 1 ≤ d → ¬ ((p.drop d).take 2 <+: ['\n', '\n'])) :
    ∀ d, 1 ≤ d → d < p.length → ¬ (p.drop d <+: b) := by
  intro d h1 h2 hpre
  exact hfact d h2 h1 (hb ▸ prefix_take _ _ 2 hpre)

theorem no_marker_before (p a b : Text)
    (hnotin : ∀ i, ¬ p.isPrefixOf (a.drop i))
    (hcross : ∀ d, 1 ≤ d → d < p.length → ¬ (p.drop d <+: b)) :
    ∀ i, i < a.length → ¬ p.isPrefixOf ((a ++ b).drop i) := by
  intro i hi hpre
  rw [List.isPrefixOf_iff_prefix] at hpre
  rw [List.drop_append_of_le_length (le_of_lt hi)] at hpre
  by_cases hle : p.length ≤ (a.drop i).length
  · exact hnotin i (List.isPrefixOf_iff_prefix.2 (prefix_of_append_of_le _ _ _ hpre hle))
  · have hlen : (a.drop i).length = a.length - i := List.length_drop i a
    refine hcross (a.drop i).length (by omega) (by omega) ?_
    exact drop_prefix_of_prefix_append p (a.drop i) b hpre (by omega)

/-- No proper tail of the conflict marker starts with two newlines: the marker
is `"\n\n" ++ title ++ ":"` and neither the title nor the colon contains a
newline, so an occurrence of a marker cannot straddle the boundary between the
original text and an appended section (which always starts `"\n\n"`). -/
theorem crossFactC : ∀ d, d < (markerOf CONFLICT_MEMORY_TITLE).length → 1 ≤ d →
    ¬ (((markerOf CONFLICT_MEMORY_TITLE).drop d).take 2 <+: ['\n', '\n']) := by decide

/-- Duplicate-marker analogue of `crossFactC`. -/
theorem crossFactD : ∀ d, d < (markerOf DUPLICATE_MEMORY_TITLE).length → 1 ≤ d →
    ¬ (((markerOf DUPLICATE_MEMORY_TITLE).drop d).take 2 <+: ['\n', '\n']) := by decide

theorem cutIndex_boundary (a app : Text)
    (h1 : ∀ i, ¬ (markerOf CONFLICT_MEMORY_TITLE).isPrefixOf (a.drop i))
    (h2 : ∀ i, ¬ (markerOf DUPLICATE_MEMORY_TITLE).isPrefixOf (a.drop i))
    (happ2 : app.take 2 = ['\n', '\n'])
    (hpre : (markerOf CONFLICT_MEMORY_TITLE).isPrefixOf app ∨
      (markerOf DUPLICATE_MEMORY_TITLE).isPrefixOf app) :
    cutIndex (a ++ app) = some a.length := by
  have hnoC := no_marker_before (markerOf CONFLICT_MEMORY_TITLE) a app h1
    (cross_from_take2 _ app happ2 crossFactC)
  have hnoD := no_marker_before (markerOf DUPLICATE_MEMORY_TITLE) a app h2
    (cross_from_take2 _ app happ2 crossFactD)
  cases hpre with
  | inl h =>
    have hC := firstOcc_append_eq _ a app h hnoC
    cases hD2 : firstOcc (markerOf DUPLICATE_MEMORY_TITLE) (a ++ app) with
    | none => simp [cutIndex, hC, hD2]
    | some j =>
      have hj := firstOcc_ge _ _ a.length hnoD j hD2
      simp [cutIndex, hC, hD2, min_eq_left hj]
  | inr h =>
    have hD := firstOcc_append_eq _ a app h hnoD
    cases hC2 : firstOcc (markerOf CONFLICT_MEMORY_TITLE) (a ++ app) with
    | none => simp [cutIndex, hC2, hD]
    | some j =>
      have hj := firstOcc_ge _ _ a.length hnoC j hC2
      simp [cutIndex, hC2, hD, min_eq_right hj]

theorem append_detach_text (a : Text) (dups confs : List Text)
    (h1 : ∀ i, ¬ (markerOf CONFLICT_MEMORY_TITLE).isPrefixOf (a.drop i))
    (h2 : ∀ i, ¬ (markerOf DUPLICATE_MEMORY_TITLE).isPrefixOf (a.drop i)) :
    detachRelatedContent (appendRelatedContent a dups confs) = a := by
  rw [appendRelatedContent]
  by_cases happ : formatSection CONFLICT_MEMORY_TITLE confs ++
      formatSection DUPLICATE_MEMORY_TITLE dups = []
  · rw [if_pos happ]
    have hcn : firstOcc (markerOf CONFLICT_MEMORY_TITLE) a = none := (firstOcc_eq_none _ a).2 h1
    have hdn : firstOcc (markerOf DUPLICATE_MEMORY_TITLE) a = none := (firstOcc_eq_none _ a).2 h2
    simp [detachRelatedContent, cutIndex, hcn, hdn]
  · rw [if_neg happ]
    have hcut : cutIndex (a ++ (formatSection CONFLICT_MEMORY_TITLE confs ++
        formatSection DUPLICATE_MEMORY_TITLE dups)) = some a.length := by
      by_cases hc : confs = []
      · have hd : dups ≠ [] := by
          intro hd
          exact happ (by simp [hc, hd, formatSection])
        refine cutIndex_boundary a _ h1 h2 ?_ (Or.inr ?_)
        · rw [hc, formatSection, if_pos rfl, List.nil_append, formatSection, if_neg hd,
            markerOf]
          rfl
        · rw [hc, formatSection, if_pos rfl, List.nil_append, formatSection, if_neg hd]
          exact List.isPrefixOf_iff_prefix.2 ⟨_, rfl⟩
      · refine cutIndex_boundary a _ h1 h2 ?_ (Or.inl ?_)
        · rw [formatSection, if_neg hc, markerOf]
          rfl
        · rw [formatSection, if_neg hc, List.append_assoc]
          exact List.isPrefixOf_iff_prefix.2 ⟨_, rfl⟩
    rw [detachRelatedContent.eq_def, hcut]
    exact List.take_left a _

/-- C9 (amended): `_append_related_content` followed by
`_detach_related_content` restores the item's memory text exactly, provided
the original text contains neither detach marker
(`"\n\n[possibly conflicting memories]:"` /
`"\n\n[possibly duplicate memories]:"`) as a substring; an original text that
already contains a marker is instead truncated at its first marker. -/
theorem C9_append_detach_roundtrip (item : TextualMemoryItem) (dups confs : List Text)
    (h1 : ¬ occursIn (markerOf CONFLICT_MEMORY_TITLE) item.memory)
    (h2 : ¬ occursIn (markerOf DUPLICATE_MEMORY_TITLE) item.memory) :
    detachRelatedItem (appendRelatedItem item dups confs) = item := by
  have h1x : ∀ i, ¬ (markerOf CONFLICT_MEMORY_TITLE).isPrefixOf (item.memory.drop i) :=
    fun i hp => h1 ⟨i, hp⟩
  have h2x : ∀ i, ¬ (markerOf DUPLICATE_MEMORY_TITLE).isPrefixOf (item.memory.drop i) :=
    fun i hp => h2 ⟨i, hp⟩
  have htext := append_detach_text item.memory dups confs h1x h2x
  cases item with
  | mk i mem tags => simp [detachRelatedItem, appendRelatedItem, htext]

theorem C9_append_detach_roundtrip_witness :
    (¬ occursIn (markerOf CONFLICT_MEMORY_TITLE)
      (⟨5, "hello there".toList, []⟩ : TextualMemoryItem).memory) ∧
    (¬ occursIn (markerOf DUPLICATE_MEMORY_TITLE)
      (⟨5, "hello there".toList, []⟩ : TextualMemoryItem).memory) ∧
    detachRelatedItem (appendRelatedItem ⟨5, "hello there".toList, []⟩
        ["dddddd".toList] ["cc".toList])
      = (⟨5, "hello there".toList, []⟩ : TextualMemoryItem) :=
  ⟨by decide, by decide,
    C9_append_detach_roundtrip ⟨5, "hello there".toList, []⟩ ["dddddd".toList] ["cc".toList]
      (by decide) (by decide)⟩

/-- C9 counterexample: when the original memory text already contains the
conflict marker, the detach cuts at the first marker occurrence inside the
original text, so the round trip does not restore the original. -/
theorem C9_counterexample :
    detachRelatedItem (appendRelatedItem
        ⟨0, "a\n\n[possibly conflicting memories]: b".toList, []⟩ [] ["cccccc".toList])
      = (⟨0, "a".toList, []⟩ : TextualMemoryItem) ∧
    ("a".toList : Text) ≠ "a\n\n[possibly conflicting memories]: b".toList := by
  constructor
  · rfl
  · decide

end MemOS
